import Mathlib

/-!
Verification of the gservice supervision core (`gservice/core.py`) against its
natural-language specification.

The embedding is shallow: the Python classes and methods are translated into
executable Lean definitions.  Exceptions become an explicit fault type,
greenlet side effects become event traces, and the one genuinely recursive
runtime structure (the error-interceptor wrapping its own handlers) is made
total with an explicit fuel argument.
-/

/-! ## Python value model

`core.py` line 11 defines the not-yet-ready sentinel as the *integer* `1`:
`NOT_READY = 1`, and `start` compares the `do_start` return value to it with
Python `==`.  Python equality identifies `True` with `1` and `False` with `0`,
so the comparison semantics must be modelled explicitly. -/

inductive PyVal where
  | pynone : PyVal
  | pybool (b : Bool) : PyVal
  | pyint (n : Int) : PyVal
  | pystr (s : String) : PyVal
deriving DecidableEq, Repr

/-- Python `==` on the values that can flow out of a `do_start` hook.
Booleans compare equal to the integers 1 and 0 (`True == 1` in Python). -/
def pyEq : PyVal → PyVal → Bool
  | .pynone, .pynone => true
  | .pybool a, .pybool b => a == b
  | .pybool a, .pyint n => (if a then (1 : Int) else 0) == n
  | .pyint n, .pybool a => n == (if a then (1 : Int) else 0)
  | .pyint m, .pyint n => m == n
  | .pystr s, .pystr t => s == t
  | _, _ => false

/-- `core.py` line 11: `NOT_READY = 1`. -/
def NOT_READY : PyVal := .pyint 1

/-! ## Error interceptor (`Service._wrap_errors`, `core.py` lines 126-145)

An exception instance is modelled by the list of class identifiers it is an
instance of (its own class followed by its ancestors), so that Python
`isinstance` becomes list membership.  The handler table
`Service._error_handlers` is modelled as an association list from class
identifier to handler identifier, in registration order.  A handler's runtime
behaviour is a function from (handler identifier, exception) to `Option Exc`:
`none` means the handler returns normally, `some e` means it raises `e`.

`wrapped_f` in the source:
- computes the tuple of registered exception classes,
- runs the body; a raised exception is caught only if it is an instance of a
  registered class;
- once caught, the `for` loop invokes the handler of *every* matching entry
  (there is no `break`), each handler call being itself wrapped by
  `self._wrap_errors`;
- after the loop the original exception is *returned* (not re-raised);
- an exception escaping a wrapped handler call propagates out of the loop and
  out of `wrapped_f`. -/

structure Exc where
  mro : List Nat
deriving DecidableEq, Repr

/-- Python `isinstance(e, k)`: `k` occurs in the exception's class ancestry. -/
def isinstanceB (e : Exc) (k : Nat) : Bool := e.mro.contains k

/-- The handler table: (exception class, handler id) in registration order. -/
abbrev Handlers := List (Nat × Nat)

/-- Whether the raised exception is caught by `except tuple(keys)`. -/
def matchesAny (hs : Handlers) (e : Exc) : Bool := hs.any (fun p => isinstanceB e p.1)

/-- Behaviour of handlers: `hb h e = none` means handler `h` applied to
exception `e` returns normally; `some f` means it raises `f`. -/
abbrev HandlerBeh := Nat → Exc → Option Exc

/-- Outcome of invoking a callable wrapped by `_wrap_errors`. -/
inductive COut where
  | normal : COut
  | excValue (e : Exc) : COut
  | raised (e : Exc) : COut
deriving DecidableEq, Repr

/-- The `for type in self._error_handlers` loop (`core.py` lines 140-143),
iterating over `entries` for caught exception `e`, with `wc` the wrapped
invocation used for handler calls (`self._wrap_errors(handler)(...)`).
First component: `some e2` when a wrapped handler call raised `e2` (aborting
the loop and propagating), `none` when the loop ran to completion.  Second
component: the handler invocations (handler id, exception given), in
execution order. -/
def handlerLoopF (wc : Option Exc → COut × List (Nat × Exc)) (hb : HandlerBeh)
    (entries : List (Nat × Nat)) (e : Exc) : Option Exc × List (Nat × Exc) :=
  match entries with
  | [] => (none, [])
  | (t, h) :: rest =>
    if isinstanceB e t then
      let hc := wc (hb h e)
      match hc.1 with
      | .raised e2 => (some e2, (h, e) :: hc.2)
      | _ =>
        let r := handlerLoopF wc hb rest e
        (r.1, (h, e) :: hc.2 ++ r.2)
    else handlerLoopF wc hb rest e

/-- One invocation of `wrapped_f` (`core.py` lines 135-144) on a body whose
outcome is `body` (`none`: returns normally, `some e`: raises `e`).  Returns
the call outcome together with the list of handler invocations performed.
`fuel` bounds the handler-rewrapping recursion depth (one unit per nesting
level); with fuel `0` a caught exception is returned as `raised`, modelling
the cut-off of an unbounded recursion — the claims below always supply
enough fuel to keep the cut-off unreachable. -/
def wrappedCall (hb : HandlerBeh) (hs : Handlers) : Nat → Option Exc → COut × List (Nat × Exc)
  | _, none => (.normal, [])
  | 0, some e => (.raised e, [])
  | fuel + 1, some e =>
    if matchesAny hs e then
      let r := handlerLoopF (fun b => wrappedCall hb hs fuel b) hb hs e
      match r.1 with
      | some e2 => (.raised e2, r.2)
      | none => (.excValue e, r.2)
    else (.raised e, [])

/-! ## Registration (`Service.catch`, lines 147-155) and spawning
(`Service.spawn` / `spawn_later`, lines 157-169)

`catch` stores `self._error_handlers[type] = (handler, greenlet)`: an update
of the table keyed by exception class.  `spawn` wraps the function with
`self._wrap_errors`; the resulting closure dereferences
`self._error_handlers` when it *runs*, so the table consulted is the one in
effect at execution time, not a copy taken at spawn time.  We model a service
(for interception purposes) by its handler table, a spawned task by its body
alone, and running a spawned task as `wrappedCall` against the service's
current table. -/

structure SvcE where
  handlers : Handlers
deriving DecidableEq, Repr

/-- Dictionary update: replace the entry for the class if present (keeping its
position), otherwise append. -/
def updateTable : Handlers → Nat → Nat → Handlers
  | [], k, h => [(k, h)]
  | (k2, h2) :: rest, k, h =>
    if k2 == k then (k, h) :: rest else (k2, h2) :: updateTable rest k h

/-- `Service.catch` restricted to this node's own table (child propagation is
a separate recursion in the source and is irrelevant to interception at this
node). -/
def catchE (k h : Nat) (s : SvcE) : SvcE := ⟨updateTable s.handlers k h⟩

/-- A task spawned via `spawn`/`spawn_later`: only the body is stored; the
wrapping closure keeps a reference to the service, not a copy of its table. -/
structure SpawnedTask where
  body : Option Exc
deriving DecidableEq, Repr

/-- `Service.spawn` / `spawn_later`: note the result does not depend on the
handler table of `s` at spawn time. -/
def spawnE (_s : SvcE) (body : Option Exc) : SpawnedTask := ⟨body⟩

/-- Running a spawned task: the wrapped closure reads the service's *current*
handler table. -/
def runSpawned (s : SvcE) (tk : SpawnedTask) (hb : HandlerBeh) (fuel : Nat) :
    COut × List (Nat × Exc) :=
  wrappedCall hb s.handlers fuel tk.body

/-! ## Service lifecycle (`Service.start` / `Service.stop`, lines 171-248)

A service tree carries, at every node, the static configuration of the node
(its hook behaviours and timeouts, the `NodeSpec`) and its mutable state
(`started`, the ready event, the stopped event, the greenlet group, and the
handler table).  Children are either supervised services or raw
`gevent.baseserver.BaseServer` instances (the `elif` branch of `start`,
lines 184-186); the latter are modelled as `foreign` leaves.

Hook behaviours are modelled by their observable outcome: life-cycle hooks
other than `do_start` either return (`none`) or raise a given fault
(`some f`); `do_start` additionally reports whether it called `set_ready`
and which Python value it returned.

Every run of `start`/`stop` also produces an event trace recording hook
invocations and teardown steps in execution order, so that ordering claims
can be stated about it. -/

inductive Fault where
  | doubleStart (id : Nat) : Fault
  | hookErr (code : Nat) : Fault
deriving DecidableEq, Repr

/-- First-fault-wins combination (Python: an exception raised in a `finally`
block, or by `stop()` inside an `except` block, replaces the pending one; the
*first* argument is the replacing fault). -/
def orF : Option Fault → Option Fault → Option Fault
  | some f, _ => some f
  | none, g => g

/-- Outcome of a `do_start` hook. -/
inductive DoStartRes where
  | ok (setsReady : Bool) (ret : PyVal) : DoStartRes
  | fault (f : Fault) : DoStartRes
deriving DecidableEq, Repr

structure NodeSpec where
  id : Nat
  stopTimeout : Nat
  readyTimeout : Nat
  preStartH : Option Fault
  doStartH : DoStartRes
  postStartH : Option Fault
  preStopH : Option Fault
  doStopH : Option Fault
  postStopH : Option Fault
deriving DecidableEq, Repr

structure NodeState where
  started : Bool
  readyEv : Bool
  stoppedEv : Bool
  greenlets : List Nat
  handlers : Handlers
deriving DecidableEq, Repr

structure ForeignSpec where
  id : Nat
  startFault : Option Fault
  stopFault : Option Fault
deriving DecidableEq, Repr

inductive STree where
  | svc (sp : NodeSpec) (st : NodeState) (children : List STree) : STree
  | foreign (fs : ForeignSpec) (started : Bool) : STree

/-- Events recorded while running `start`/`stop`. -/
inductive Ev where
  | preStartEv (id : Nat) : Ev
  | doStartEv (id : Nat) : Ev
  | waitReadyEv (id : Nat) (timeout : Nat) : Ev
  | setReadyEv (id : Nat) : Ev
  | markStarted (id : Nat) : Ev
  | postStartEv (id : Nat) : Ev
  | faultRaised (f : Fault) : Ev
  | stopBegin (id : Nat) : Ev
  | preStopEv (id : Nat) : Ev
  | doStopEv (id : Nat) : Ev
  | joinAllEv (id : Nat) (timeout : Nat) : Ev
  | killAllEv (id : Nat) (grace : Nat) : Ev
  | clearReadyEv (id : Nat) : Ev
  | setStoppedEv (id : Nat) : Ev
  | postStopEv (id : Nat) : Ev
deriving DecidableEq, Repr

def rootStartedOf : STree → Bool
  | .svc _ st _ => st.started
  | .foreign _ s => s

def rootReadyOf : STree → Bool
  | .svc _ st _ => st.readyEv
  | .foreign _ _ => false

def rootStoppedOf : STree → Bool
  | .svc _ st _ => st.stoppedEv
  | .foreign _ _ => false

def idOf : STree → Nat
  | .svc sp _ _ => sp.id
  | .foreign fs _ => fs.id

def childrenOf : STree → List STree
  | .svc _ _ cs => cs
  | .foreign _ _ => []

mutual

/-- `Service.stop` (`core.py` lines 213-238), called from outside the
service's own greenlets (the self-stop deferral of line 219 re-dispatches
onto a fresh greenlet and is a concurrency concern outside this embedding).

Steps, as in the source: set `started = False`; then `try:` run `pre_stop`,
stop started children in reverse list order, run `do_stop`; `finally:`
resolve the timeout default, join-then-kill the greenlet group when it is
non-empty, clear the ready event, set the stopped event, run `post_stop`.
A fault raised in the `try` part is re-raised after the `finally` part unless
the `finally` part (here: `post_stop`) itself raises. -/
def stopS (a : Option Nat) : STree → Option Fault × STree × List Ev
  | .foreign fs s =>
    match fs.stopFault with
    | some f => (some f, .foreign fs s, [.stopBegin fs.id])
    | none => (none, .foreign fs false, [.stopBegin fs.id])
  | .svc sp st cs =>
    let r : Option Fault × List STree × List Ev :=
      match sp.preStopH with
      | some f => (some f, cs, [.preStopEv sp.id])
      | none =>
        let rc := stopChildrenRev cs
        match rc.1 with
        | some f => (some f, rc.2.1, .preStopEv sp.id :: rc.2.2)
        | none => (sp.doStopH, rc.2.1, .preStopEv sp.id :: rc.2.2 ++ [.doStopEv sp.id])
    (orF sp.postStopH r.1,
     .svc sp ⟨false, false, true, st.greenlets, st.handlers⟩ r.2.1,
     .stopBegin sp.id :: r.2.2
       ++ (if st.greenlets.isEmpty then []
           else [.joinAllEv sp.id (a.getD sp.stopTimeout), .killAllEv sp.id 1])
       ++ [.clearReadyEv sp.id, .setStoppedEv sp.id, .postStopEv sp.id])

/-- The loop `for child in reversed(self._children): if child.started:
child.stop()` (lines 224-228).  The recursion first processes the tail of the
list (the children added later), then the head, which is exactly reverse list
order; a fault from a child's `stop` aborts the loop, leaving the remaining
children untouched. -/
def stopChildrenRev : List STree → Option Fault × List STree × List Ev
  | [] => (none, [], [])
  | c :: rest =>
    let r := stopChildrenRev rest
    match r.1 with
    | some f => (some f, c :: r.2.1, r.2.2)
    | none =>
      if rootStartedOf c then
        let rc := stopS none c
        (rc.1, rc.2.1 :: r.2.1, r.2.2 ++ rc.2.2)
      else (none, c :: r.2.1, r.2.2)

end

mutual

/-- `Service.start` (`core.py` lines 171-196).

Steps, as in the source: raise the double-start `RuntimeWarning` if already
started (before anything is mutated); clear the stopped and ready events;
then `try:` run `pre_start`, start not-yet-started children in list order
(supervised children recursively with the same `block_until_ready` flag,
foreign `BaseServer` children directly), run `do_start` and compare its
return value to `NOT_READY` with Python `==` (waiting on the ready event for
`ready_timeout` when equal and blocking was requested, setting the ready
event otherwise), set `started = True`, run `post_start`; `except:` run
`self.stop()` and re-raise (an exception raised by `stop()` itself replaces
the original one). -/
def startS (b : Bool) : STree → Option Fault × STree × List Ev
  | .foreign fs s =>
    match fs.startFault with
    | some f => (some f, .foreign fs s, [])
    | none => (none, .foreign fs true, [.markStarted fs.id])
  | .svc sp st cs =>
    if st.started then (some (.doubleStart sp.id), .svc sp st cs, [])
    else
      let st1 : NodeState := { st with stoppedEv := false, readyEv := false }
      match sp.preStartH with
      | some f =>
        let r := stopS none (.svc sp st1 cs)
        (orF r.1 (some f), r.2.1, .preStartEv sp.id :: .faultRaised f :: r.2.2)
      | none =>
        let rc := startChildren b cs
        match rc.1 with
        | some f =>
          let r := stopS none (.svc sp st1 rc.2.1)
          (orF r.1 (some f), r.2.1,
           .preStartEv sp.id :: rc.2.2 ++ .faultRaised f :: r.2.2)
        | none =>
          match sp.doStartH with
          | .fault f =>
            let r := stopS none (.svc sp st1 rc.2.1)
            (orF r.1 (some f), r.2.1,
             .preStartEv sp.id :: rc.2.2 ++ .doStartEv sp.id :: .faultRaised f :: r.2.2)
          | .ok setsR v =>
            let wtr : List Ev :=
              if pyEq v NOT_READY then
                (if b then [.waitReadyEv sp.id sp.readyTimeout] else [])
              else [.setReadyEv sp.id]
            let st4 : NodeState :=
              { st1 with started := true,
                         readyEv := (if pyEq v NOT_READY then setsR else true) }
            match sp.postStartH with
            | some f =>
              let r := stopS none (.svc sp st4 rc.2.1)
              (orF r.1 (some f), r.2.1,
               .preStartEv sp.id :: rc.2.2 ++ .doStartEv sp.id :: wtr
                 ++ .markStarted sp.id :: .postStartEv sp.id :: .faultRaised f :: r.2.2)
            | none =>
              (none, .svc sp st4 rc.2.1,
               .preStartEv sp.id :: rc.2.2 ++ .doStartEv sp.id :: wtr
                 ++ [.markStarted sp.id, .postStartEv sp.id])

/-- The child-starting loop of `start` (lines 180-186): children in list
order; a supervised child is started recursively when not yet started
(`child.start(block_until_ready)`), a foreign `BaseServer` child is started
directly when not yet started; started children are skipped; a fault from a
child's start aborts the loop. -/
def startChildren (b : Bool) : List STree → Option Fault × List STree × List Ev
  | [] => (none, [], [])
  | c :: rest =>
    if rootStartedOf c then
      let r := startChildren b rest
      (r.1, c :: r.2.1, r.2.2)
    else
      let rc := startS b c
      match rc.1 with
      | some f => (some f, rc.2.1 :: rest, rc.2.2)
      | none =>
        let r := startChildren b rest
        (r.1, rc.2.1 :: r.2.1, rc.2.2 ++ r.2.2)

end

/-- `Service.set_ready` (lines 106-108): sets the ready event,
unconditionally. -/
def setReadyT : STree → STree
  | .svc sp st cs => .svc sp { st with readyEv := true } cs
  | .foreign fs s => .foreign fs s

/-- `Service.serve_forever` (lines 259-269): start the service when not
already started (with the default `block_until_ready=True`), then block on
the stopped event; the wait itself does not mutate state. -/
def serveForeverT (t : STree) : STree :=
  if rootStartedOf t then t else (startS true t).2.1

/-! ## Lifecycle operation sequences and invariants -/

/-- One externally invocable lifecycle operation on the root service. -/
inductive Op where
  | startOp (block : Bool) : Op
  | stopOp (timeoutArg : Option Nat) : Op
  | setReadyOp : Op
  | serveForeverOp : Op
deriving DecidableEq, Repr

/-- State reached after one operation (faults, if any, propagate to the
operation's caller; the state is the one left behind either way). -/
def applyOp : Op → STree → STree
  | .startOp b, t => (startS b t).2.1
  | .stopOp a, t => (stopS a t).2.1
  | .setReadyOp, t => setReadyT t
  | .serveForeverOp, t => serveForeverT t

def runOps : List Op → STree → STree
  | [], t => t
  | op :: ops, t => runOps ops (applyOp op t)

/-- Guard on an operation sequence: `set_ready` is only invoked while the
root service is started. -/
def guardedOps : List Op → STree → Bool
  | [], _ => true
  | op :: ops, t =>
    (match op with
     | .setReadyOp => rootStartedOf t
     | _ => true) && guardedOps ops (applyOp op t)

mutual

/-- The §3 invariant, at every node of the tree: the ready gate is false
whenever `started` is false. -/
def InvT : STree → Bool
  | .svc _ st cs => (st.started || !st.readyEv) && InvList cs
  | .foreign _ _ => true

def InvList : List STree → Bool
  | [] => true
  | c :: rest => InvT c && InvList rest

end

mutual

/-- All stop-path hooks in the tree return normally (no `pre_stop`,
`do_stop`, `post_stop` or foreign-stop fault anywhere). -/
def stopCleanT : STree → Bool
  | .svc sp _ cs =>
    sp.preStopH.isNone && sp.doStopH.isNone && sp.postStopH.isNone && stopCleanList cs
  | .foreign fs _ => fs.stopFault.isNone

def stopCleanList : List STree → Bool
  | [] => true
  | c :: rest => stopCleanT c && stopCleanList rest

end

/-- The event trace contributed by one child in the reverse-order stop loop:
its full stop trace when it was started, nothing when it is skipped. -/
def childStopTrace (c : STree) : List Ev :=
  if rootStartedOf c then (stopS none c).2.2 else []

/-- The stop-entry markers occurring in a trace, in order. -/
def stopBegins (tr : List Ev) : List Nat :=
  tr.filterMap (fun e => match e with | .stopBegin i => some i | _ => none)

/-! ## Concrete instances used by witnesses and counterexamples -/

/-- Handler behaviour where every handler returns normally. -/
def hbNone : HandlerBeh := fun _ _ => none

/-- Handler behaviour where handler 10 raises an exception of the
unregistered class 99. -/
def hbEscape : HandlerBeh := fun h _ => if h == 10 then some ⟨[99]⟩ else none

/-- Handler behaviour where handler 10 raises an exception of class 2
(registered, in the scenarios below, to handler 20). -/
def hbChain : HandlerBeh := fun h _ => if h == 10 then some ⟨[2]⟩ else none

/-- A hook-fault-free node specification. -/
def cleanSpec (i : Nat) : NodeSpec := ⟨i, 1, 2, none, .ok false .pynone, none, none, none, none⟩

/-- A node specification whose `post_start` hook raises. -/
def postStartFaultSpec (i : Nat) : NodeSpec :=
  ⟨i, 1, 2, none, .ok false .pynone, some (.hookErr 99), none, none, none⟩

/-- A node specification whose `do_start` hook returns the Python `True`. -/
def pyTrueSpec (i : Nat) : NodeSpec :=
  ⟨i, 1, 2, none, .ok false (.pybool true), none, none, none, none⟩

/-- A node specification whose `pre_stop` hook raises. -/
def preStopFaultSpec (i : Nat) : NodeSpec :=
  ⟨i, 1, 2, none, .ok false .pynone, none, some (.hookErr 7), none, none⟩

/-- Fresh (never started) node state. -/
def freshState : NodeState := ⟨false, false, false, [], []⟩

/-- Started node state with one greenlet in the group. -/
def runningState : NodeState := ⟨true, true, false, [5], []⟩

/-! ## Helper lemmas -/

theorem orF_none_left (x : Option Fault) : orF none x = x := rfl

theorem orF_some_right (x : Option Fault) (f : Fault) : orF x (some f) ≠ none := by
  cases x <;> simp [orF]

/-- The uniform shape of `stop` on a service node: whatever the `try` part
does, the result state has `started = false`, `readyEv = false`,
`stoppedEv = true`, and the trace ends with the always-run cleanup events. -/
theorem stopS_svc_shape (a : Option Nat) (sp : NodeSpec) (st : NodeState)
    (cs : List STree) :
    ∃ tf cs2 ttr, stopS a (.svc sp st cs) =
      (orF sp.postStopH tf,
       .svc sp ⟨false, false, true, st.greenlets, st.handlers⟩ cs2,
       .stopBegin sp.id :: ttr
         ++ (if st.greenlets.isEmpty then []
             else [.joinAllEv sp.id (a.getD sp.stopTimeout), .killAllEv sp.id 1])
         ++ [.clearReadyEv sp.id, .setStoppedEv sp.id, .postStopEv sp.id]) := by
  simp only [stopS]
  exact ⟨_, _, _, rfl⟩

/-- The children stored back by `stop` on a service node: untouched when
`pre_stop` faults, otherwise the output of the reverse-order child loop. -/
theorem stopS_svc_children (a : Option Nat) (sp : NodeSpec) (st : NodeState)
    (cs : List STree) :
    (stopS a (.svc sp st cs)).2.1
        = .svc sp ⟨false, false, true, st.greenlets, st.handlers⟩ cs
    ∨ (stopS a (.svc sp st cs)).2.1
        = .svc sp ⟨false, false, true, st.greenlets, st.handlers⟩
            (stopChildrenRev cs).2.1 := by
  simp only [stopS]
  cases sp.preStopH with
  | some f => exact .inl rfl
  | none =>
    cases (stopChildrenRev cs).1 with
    | some f => exact .inr rfl
    | none => exact .inr rfl

mutual

theorem stop_preserves_inv (a : Option Nat) (t : STree) (h : InvT t = true) :
    InvT ((stopS a t).2.1) = true := by
  cases t with
  | foreign fs s => cases hf : fs.stopFault <;> simp [stopS, hf, InvT]
  | svc sp st cs =>
    have hcs : InvList cs = true := by
      simp only [InvT, Bool.and_eq_true] at h
      exact h.2
    rcases stopS_svc_children a sp st cs with hc | hc <;> rw [hc] <;>
      simp only [InvT, Bool.and_eq_true]
    · exact ⟨rfl, hcs⟩
    · exact ⟨rfl, stopList_preserves_inv cs hcs⟩
termination_by sizeOf t

theorem stopList_preserves_inv (cs : List STree) (h : InvList cs = true) :
    InvList ((stopChildrenRev cs).2.1) = true := by
  cases cs with
  | nil => simpa [stopChildrenRev] using h
  | cons c rest =>
    simp only [InvList, Bool.and_eq_true] at h
    have hrest := stopList_preserves_inv rest h.2
    simp only [stopChildrenRev]
    cases hr : (stopChildrenRev rest).1 with
    | some f =>
      simp only [InvList, Bool.and_eq_true]
      exact ⟨h.1, hrest⟩
    | none =>
      cases hst : rootStartedOf c <;> simp only [InvList, Bool.and_eq_true]
      · exact ⟨h.1, hrest⟩
      · exact ⟨stop_preserves_inv none c h.1, hrest⟩
termination_by sizeOf cs

end

mutual

theorem start_preserves_inv (b : Bool) (t : STree) (h : InvT t = true) :
    InvT ((startS b t).2.1) = true := by
  cases t with
  | foreign fs s => cases hf : fs.startFault <;> simp [startS, hf, InvT]
  | svc sp st cs =>
    have hcs : InvList cs = true := by
      simp only [InvT, Bool.and_eq_true] at h
      exact h.2
    have hcs' := startList_preserves_inv b cs hcs
    simp only [startS]
    cases hst : st.started with
    | true =>
      simp only [if_true]
      simpa only [InvT, Bool.and_eq_true] using h
    | false =>
      simp only [Bool.false_eq_true, if_false]
      cases hp : sp.preStartH with
      | some f =>
        apply stop_preserves_inv
        simp only [InvT, Bool.and_eq_true]
        exact ⟨rfl, hcs⟩
      | none =>
        cases hrc : (startChildren b cs).1 with
        | some f =>
          apply stop_preserves_inv
          simp only [InvT, Bool.and_eq_true]
          exact ⟨rfl, hcs'⟩
        | none =>
          cases hds : sp.doStartH with
          | fault f =>
            apply stop_preserves_inv
            simp only [InvT, Bool.and_eq_true]
            exact ⟨rfl, hcs'⟩
          | ok setsR v =>
            cases hps : sp.postStartH with
            | some f =>
              apply stop_preserves_inv
              simp only [InvT, Bool.and_eq_true]
              exact ⟨rfl, hcs'⟩
            | none =>
              simp only [InvT, Bool.and_eq_true]
              exact ⟨rfl, hcs'⟩
termination_by sizeOf t

theorem startList_preserves_inv (b : Bool) (cs : List STree) (h : InvList cs = true) :
    InvList ((startChildren b cs).2.1) = true := by
  cases cs with
  | nil => simpa [startChildren] using h
  | cons c rest =>
    simp only [InvList, Bool.and_eq_true] at h
    have hrest := startList_preserves_inv b rest h.2
    simp only [startChildren]
    cases hst : rootStartedOf c with
    | true =>
      simp only [if_true, InvList, Bool.and_eq_true]
      exact ⟨h.1, hrest⟩
    | false =>
      simp only [Bool.false_eq_true, if_false]
      have hc := start_preserves_inv b c h.1
      cases hrc : (startS b c).1 with
      | some f =>
        simp only [InvList, Bool.and_eq_true]
        exact ⟨hc, h.2⟩
      | none =>
        simp only [InvList, Bool.and_eq_true]
        exact ⟨hc, hrest⟩
termination_by sizeOf cs

end

mutual

theorem stopClean_stop_none (a : Option Nat) (t : STree) (h : stopCleanT t = true) :
    (stopS a t).1 = none := by
  cases t with
  | foreign fs s =>
    simp only [stopCleanT, Option.isNone_iff_eq_none] at h
    simp [stopS, h]
  | svc sp st cs =>
    simp only [stopCleanT, Bool.and_eq_true, Option.isNone_iff_eq_none] at h
    obtain ⟨⟨⟨hpre, hdo⟩, hpost⟩, hlist⟩ := h
    have hcl := stopClean_stopList_none cs hlist
    simp [stopS, hpre, hdo, hpost, hcl, orF]
termination_by sizeOf t

theorem stopClean_stopList_none (cs : List STree) (h : stopCleanList cs = true) :
    (stopChildrenRev cs).1 = none := by
  cases cs with
  | nil => simp [stopChildrenRev]
  | cons c rest =>
    simp only [stopCleanList, Bool.and_eq_true] at h
    have hrest := stopClean_stopList_none rest h.2
    simp only [stopChildrenRev]
    rw [hrest]
    cases hst : rootStartedOf c
    · simp
    · simp [stopClean_stop_none none c h.1]
termination_by sizeOf cs

end

mutual

theorem stop_preserves_sc (a : Option Nat) (t : STree) (h : stopCleanT t = true) :
    stopCleanT ((stopS a t).2.1) = true := by
  cases t with
  | foreign fs s =>
    cases hf : fs.stopFault <;> simp_all [stopS, stopCleanT]
  | svc sp st cs =>
    simp only [stopCleanT, Bool.and_eq_true] at h
    rcases stopS_svc_children a sp st cs with hc | hc <;> rw [hc] <;>
      simp only [stopCleanT, Bool.and_eq_true]
    · exact h
    · exact ⟨h.1, stopList_preserves_sc cs h.2⟩
termination_by sizeOf t

theorem stopList_preserves_sc (cs : List STree) (h : stopCleanList cs = true) :
    stopCleanList ((stopChildrenRev cs).2.1) = true := by
  cases cs with
  | nil => simpa [stopChildrenRev] using h
  | cons c rest =>
    simp only [stopCleanList, Bool.and_eq_true] at h
    have hrest := stopList_preserves_sc rest h.2
    simp only [stopChildrenRev]
    cases hr : (stopChildrenRev rest).1 with
    | some f =>
      simp only [stopCleanList, Bool.and_eq_true]
      exact ⟨h.1, hrest⟩
    | none =>
      cases hst : rootStartedOf c <;> simp only [stopCleanList, Bool.and_eq_true]
      · exact ⟨h.1, hrest⟩
      · exact ⟨stop_preserves_sc none c h.1, hrest⟩
termination_by sizeOf cs

end

mutual

theorem start_preserves_sc (b : Bool) (t : STree) (h : stopCleanT t = true) :
    stopCleanT ((startS b t).2.1) = true := by
  cases t with
  | foreign fs s =>
    cases hf : fs.startFault <;> simp_all [startS, stopCleanT]
  | svc sp st cs =>
    have hsp : (sp.preStopH.isNone && sp.doStopH.isNone && sp.postStopH.isNone) = true := by
      simp only [stopCleanT, Bool.and_eq_true] at h
      simp [h.1.1, h.1.2]
    have hcs : stopCleanList cs = true := by
      simp only [stopCleanT, Bool.and_eq_true] at h
      exact h.2
    have hcs' := startList_preserves_sc b cs hcs
    simp only [startS]
    cases hst : st.started with
    | true =>
      simp only [if_true]
      simpa only [stopCleanT, Bool.and_eq_true] using h
    | false =>
      simp only [Bool.false_eq_true, if_false]
      cases hp : sp.preStartH with
      | some f =>
        apply stop_preserves_sc
        simp only [stopCleanT, Bool.and_eq_true]
        simp only [Bool.and_eq_true] at hsp
        exact ⟨hsp, hcs⟩
      | none =>
        cases hrc : (startChildren b cs).1 with
        | some f =>
          apply stop_preserves_sc
          simp only [stopCleanT, Bool.and_eq_true]
          simp only [Bool.and_eq_true] at hsp
          exact ⟨hsp, hcs'⟩
        | none =>
          cases hds : sp.doStartH with
          | fault f =>
            apply stop_preserves_sc
            simp only [stopCleanT, Bool.and_eq_true]
            simp only [Bool.and_eq_true] at hsp
            exact ⟨hsp, hcs'⟩
          | ok setsR v =>
            cases hps : sp.postStartH with
            | some f =>
              apply stop_preserves_sc
              simp only [stopCleanT, Bool.and_eq_true]
              simp only [Bool.and_eq_true] at hsp
              exact ⟨hsp, hcs'⟩
            | none =>
              simp only [stopCleanT, Bool.and_eq_true]
              simp only [Bool.and_eq_true] at hsp
              exact ⟨hsp, hcs'⟩
termination_by sizeOf t

theorem startList_preserves_sc (b : Bool) (cs : List STree) (h : stopCleanList cs = true) :
    stopCleanList ((startChildren b cs).2.1) = true := by
  cases cs with
  | nil => simpa [startChildren] using h
  | cons c rest =>
    simp only [stopCleanList, Bool.and_eq_true] at h
    have hrest := startList_preserves_sc b rest h.2
    simp only [startChildren]
    cases hst : rootStartedOf c with
    | true =>
      simp only [if_true, stopCleanList, Bool.and_eq_true]
      exact ⟨h.1, hrest⟩
    | false =>
      simp only [Bool.false_eq_true, if_false]
      have hc := start_preserves_sc b c h.1
      cases hrc : (startS b c).1 with
      | some f =>
        simp only [stopCleanList, Bool.and_eq_true]
        exact ⟨hc, h.2⟩
      | none =>
        simp only [stopCleanList, Bool.and_eq_true]
        exact ⟨hc, hrest⟩
termination_by sizeOf cs

end

/-- A successful `start` leaves the node's `started` flag true and records the
`started = True` assignment (resp. the foreign start) in the trace. -/
theorem start_ok_facts (b : Bool) (t t' : STree) (tr : List Ev)
    (heq : startS b t = (none, t', tr)) :
    rootStartedOf t' = true ∧ Ev.markStarted (idOf t) ∈ tr := by
  cases t with
  | foreign fs s =>
    cases hf : fs.startFault <;> simp only [startS, hf] at heq
    · simp only [Prod.mk.injEq, true_and] at heq
      rcases heq with ⟨ht', htr⟩
      subst ht' htr
      simp [rootStartedOf, idOf]
    · simp at heq
  | svc sp st cs =>
    simp only [startS] at heq
    cases hst : st.started <;> simp only [hst] at heq
    case true => simp at heq
    case false =>
      simp only [Bool.false_eq_true, if_false] at heq
      cases hp : sp.preStartH with
      | some f =>
        simp only [hp, Prod.mk.injEq] at heq
        exact absurd heq.1 (orF_some_right _ _)
      | none =>
        simp only [hp] at heq
        cases hrc : (startChildren b cs).1 with
        | some f =>
          simp only [hrc, Prod.mk.injEq] at heq
          exact absurd heq.1 (orF_some_right _ _)
        | none =>
          simp only [hrc] at heq
          cases hds : sp.doStartH with
          | fault f =>
            simp only [hds, Prod.mk.injEq] at heq
            exact absurd heq.1 (orF_some_right _ _)
          | ok setsR v =>
            simp only [hds] at heq
            cases hps : sp.postStartH with
            | some f =>
              simp only [hps, Prod.mk.injEq] at heq
              exact absurd heq.1 (orF_some_right _ _)
            | none =>
              simp only [hps, Prod.mk.injEq, true_and] at heq
              rcases heq with ⟨ht', htr⟩
              subst ht'
              constructor
              · simp [rootStartedOf]
              · subst htr
                simp [idOf, List.mem_append]

/-- A successful pass of the child-starting loop leaves every stored child
started, and records, for every child that was not already started, its
`started = True` assignment in the loop's trace. -/
theorem startChildren_ok (b : Bool) (cs cs' : List STree) (tr : List Ev)
    (heq : startChildren b cs = (none, cs', tr)) :
    (∀ c' ∈ cs', rootStartedOf c' = true) ∧
    (∀ c ∈ cs, rootStartedOf c = false → Ev.markStarted (idOf c) ∈ tr) := by
  induction cs generalizing cs' tr with
  | nil =>
    simp only [startChildren, Prod.mk.injEq, true_and] at heq
    rcases heq with ⟨h1, h2⟩
    subst h1 h2
    simp
  | cons c rest ih =>
    simp only [startChildren] at heq
    cases hst : rootStartedOf c <;> simp only [hst] at heq
    case false =>
      simp only [Bool.false_eq_true, if_false] at heq
      cases hrc : (startS b c).1 with
      | some f => simp [hrc] at heq
      | none =>
        simp only [hrc, Prod.mk.injEq] at heq
        rcases heq with ⟨h0, h1, h2⟩
        subst h1 h2
        have hsc : startS b c = (none, (startS b c).2.1, (startS b c).2.2) := by
          rw [← hrc]
        have hr : startChildren b rest
            = (none, (startChildren b rest).2.1, (startChildren b rest).2.2) := by
          rw [← h0]
        have hko := start_ok_facts b c _ _ hsc
        have hih := ih _ _ hr
        constructor
        · intro c' hc'
          rcases List.mem_cons.mp hc' with h | h
          · subst h; exact hko.1
          · exact hih.1 c' h
        · intro x hx hxf
          rcases List.mem_cons.mp hx with h | h
          · subst h
            exact List.mem_append_left _ hko.2
          · exact List.mem_append_right _ (hih.2 x h hxf)
    case true =>
      simp only [eq_self_iff_true, if_true, Prod.mk.injEq] at heq
      rcases heq with ⟨h0, h1, h2⟩
      subst h1 h2
      have hr : startChildren b rest
          = (none, (startChildren b rest).2.1, (startChildren b rest).2.2) := by
        rw [← h0]
      have hih := ih _ _ hr
      constructor
      · intro c' hc'
        rcases List.mem_cons.mp hc' with h | h
        · subst h; exact hst
        · exact hih.1 c' h
      · intro x hx hxf
        rcases List.mem_cons.mp hx with h | h
        · subst h; rw [hst] at hxf; cases hxf
        · exact hih.2 x h hxf

/-! ## Claims -/

/-- C7: for every service whose `started` flag is true, calling `start` again
without an intervening `stop` raises the double-start fault and leaves the
service entirely unchanged — `started` stays true, and the ready event, the
stopped event, the children, the greenlet group and the handler table are all
untouched (the raise happens before any mutation). -/
theorem claim_C7 (b : Bool) (sp : NodeSpec) (st : NodeState) (cs : List STree)
    (h : st.started = true) :
    startS b (.svc sp st cs) = (some (.doubleStart sp.id), .svc sp st cs, []) := by
  simp [startS, h]

theorem claim_C7_w :
    (⟨true, true, false, [], []⟩ : NodeState).started = true ∧
    startS true (.svc (cleanSpec 0) ⟨true, true, false, [], []⟩ [])
      = (some (.doubleStart 0), .svc (cleanSpec 0) ⟨true, true, false, [], []⟩ [], []) :=
  ⟨rfl, claim_C7 true (cleanSpec 0) ⟨true, true, false, [], []⟩ [] rfl⟩

/-- C2: `stop` always runs its cleanup phase regardless of faults in
`pre_stop`, the child stops, or `do_stop` (the hook outcomes in `sp` and the
children `cs` are arbitrary here): when the greenlet group is non-empty the
trace ends with the cooperative join (with the given timeout, defaulted to
`stop_timeout`), then the forced kill with the fixed grace period 1, then
clearing the ready event, setting the stopped event, and running `post_stop`
— two distinct escalation phases in that order — and the resulting state has
the ready gate cleared, the stop signal set, and `started` false. -/
theorem claim_C2 (a : Option Nat) (sp : NodeSpec) (st : NodeState) (cs : List STree)
    (hg : st.greenlets.isEmpty = false) :
    ∃ pre,
      (stopS a (.svc sp st cs)).2.2
        = pre ++ [.joinAllEv sp.id (a.getD sp.stopTimeout), .killAllEv sp.id 1,
                  .clearReadyEv sp.id, .setStoppedEv sp.id, .postStopEv sp.id]
      ∧ rootReadyOf (stopS a (.svc sp st cs)).2.1 = false
      ∧ rootStoppedOf (stopS a (.svc sp st cs)).2.1 = true
      ∧ rootStartedOf (stopS a (.svc sp st cs)).2.1 = false := by
  obtain ⟨tf, cs2, ttr, heq⟩ := stopS_svc_shape a sp st cs
  refine ⟨.stopBegin sp.id :: ttr, ?_, ?_, ?_, ?_⟩ <;> rw [heq]
  · simp [hg]
  · simp [rootReadyOf]
  · simp [rootStoppedOf]
  · simp [rootStartedOf]

theorem claim_C2_w :
    ((⟨true, true, false, [5], []⟩ : NodeState).greenlets.isEmpty = false) ∧
    ∃ pre,
      (stopS (some 9) (.svc (preStopFaultSpec 3) ⟨true, true, false, [5], []⟩ [])).2.2
        = pre ++ [.joinAllEv 3 9, .killAllEv 3 1,
                  .clearReadyEv 3, .setStoppedEv 3, .postStopEv 3]
      ∧ rootReadyOf (stopS (some 9) (.svc (preStopFaultSpec 3) ⟨true, true, false, [5], []⟩ [])).2.1 = false
      ∧ rootStoppedOf (stopS (some 9) (.svc (preStopFaultSpec 3) ⟨true, true, false, [5], []⟩ [])).2.1 = true
      ∧ rootStartedOf (stopS (some 9) (.svc (preStopFaultSpec 3) ⟨true, true, false, [5], []⟩ [])).2.1 = false :=
  ⟨rfl, claim_C2 (some 9) (preStopFaultSpec 3) ⟨true, true, false, [5], []⟩ [] rfl⟩

/-- C10: because `NOT_READY` is the integer 1 and `start` compares the
`do_start` return value to it with Python `==`, a `do_start` hook returning
the boolean `True` is treated as the not-yet-ready sentinel: the ready gate
is not set automatically (the final state's ready event is false and the
trace has no `setReadyEv`), and with `block_until_ready` true the caller
blocks on the readiness wait bounded by `ready_timeout`. -/
theorem claim_C10 (sp : NodeSpec) (st : NodeState)
    (h1 : st.started = false) (h2 : sp.preStartH = none)
    (h3 : sp.doStartH = .ok false (.pybool true)) (h4 : sp.postStartH = none) :
    pyEq (.pybool true) NOT_READY = true ∧
    startS true (.svc sp st [])
      = (none,
         .svc sp ⟨true, false, false, st.greenlets, st.handlers⟩ [],
         [.preStartEv sp.id, .doStartEv sp.id, .waitReadyEv sp.id sp.readyTimeout,
          .markStarted sp.id, .postStartEv sp.id]) := by
  refine ⟨rfl, ?_⟩
  simp [startS, h1, h2, h3, h4, startChildren, pyEq, NOT_READY]

theorem claim_C10_w :
    (freshState.started = false ∧ (pyTrueSpec 4).preStartH = none
      ∧ (pyTrueSpec 4).doStartH = .ok false (.pybool true)
      ∧ (pyTrueSpec 4).postStartH = none) ∧
    pyEq (.pybool true) NOT_READY = true ∧
    startS true (.svc (pyTrueSpec 4) freshState [])
      = (none, .svc (pyTrueSpec 4) ⟨true, false, false, [], []⟩ [],
         [.preStartEv 4, .doStartEv 4, .waitReadyEv 4 2, .markStarted 4, .postStartEv 4]) :=
  ⟨⟨rfl, rfl, rfl, rfl⟩, claim_C10 (pyTrueSpec 4) freshState rfl rfl rfl rfl⟩

/-- C5: a successful `start` of a service node started every stored child
(their `started` flags are all true in the result), and the trace shows the
node's own `do_start` hook ran only after the child loop: the trace splits
around the node's `do_start` event, and every child that was not already
started had its `started = True` assignment recorded before that point. -/
theorem claim_C5 (b : Bool) (sp : NodeSpec) (st : NodeState) (cs : List STree)
    (t' : STree) (tr : List Ev)
    (heq : startS b (.svc sp st cs) = (none, t', tr)) :
    (∀ c' ∈ childrenOf t', rootStartedOf c' = true) ∧
    ∃ pre post, tr = pre ++ .doStartEv sp.id :: post ∧
      ∀ c ∈ cs, rootStartedOf c = false → Ev.markStarted (idOf c) ∈ pre := by
  simp only [startS] at heq
  cases hst : st.started <;> simp only [hst] at heq
  case true => simp at heq
  case false =>
    simp only [Bool.false_eq_true, if_false] at heq
    cases hp : sp.preStartH with
    | some f =>
      simp only [hp, Prod.mk.injEq] at heq
      exact absurd heq.1 (orF_some_right _ _)
    | none =>
      simp only [hp] at heq
      cases hrc : (startChildren b cs).1 with
      | some f =>
        simp only [hrc, Prod.mk.injEq] at heq
        exact absurd heq.1 (orF_some_right _ _)
      | none =>
        simp only [hrc] at heq
        cases hds : sp.doStartH with
        | fault f =>
          simp only [hds, Prod.mk.injEq] at heq
          exact absurd heq.1 (orF_some_right _ _)
        | ok setsR v =>
          simp only [hds] at heq
          cases hps : sp.postStartH with
          | some f =>
            simp only [hps, Prod.mk.injEq] at heq
            exact absurd heq.1 (orF_some_right _ _)
          | none =>
            simp only [hps, Prod.mk.injEq, true_and] at heq
            rcases heq with ⟨ht', htr⟩
            have hr : startChildren b cs
                = (none, (startChildren b cs).2.1, (startChildren b cs).2.2) := by
              rw [← hrc]
            have hok := startChildren_ok b cs _ _ hr
            constructor
            · rw [← ht']
              simpa [childrenOf] using hok.1
            · refine ⟨.preStartEv sp.id :: (startChildren b cs).2.2,
                (if pyEq v NOT_READY then
                   (if b then [Ev.waitReadyEv sp.id sp.readyTimeout] else [])
                 else [Ev.setReadyEv sp.id]) ++ [Ev.markStarted sp.id, Ev.postStartEv sp.id],
                ?_, ?_⟩
              · rw [← htr]
                simp
              · intro c hc hcf
                exact List.mem_cons_of_mem _ (hok.2 c hc hcf)

theorem claim_C5_w :
    startS true (.svc (cleanSpec 1) freshState [.svc (cleanSpec 2) freshState []])
      = (none,
         .svc (cleanSpec 1) ⟨true, true, false, [], []⟩
           [.svc (cleanSpec 2) ⟨true, true, false, [], []⟩ []],
         [.preStartEv 1, .preStartEv 2, .doStartEv 2, .setReadyEv 2, .markStarted 2,
          .postStartEv 2, .doStartEv 1, .setReadyEv 1, .markStarted 1, .postStartEv 1]) ∧
    ((∀ c' ∈ childrenOf (.svc (cleanSpec 1) ⟨true, true, false, [], []⟩
           [.svc (cleanSpec 2) ⟨true, true, false, [], []⟩ []]), rootStartedOf c' = true) ∧
     ∃ pre post,
       ([.preStartEv 1, .preStartEv 2, .doStartEv 2, .setReadyEv 2, .markStarted 2,
         .postStartEv 2, .doStartEv 1, .setReadyEv 1, .markStarted 1, .postStartEv 1]
          : List Ev)
         = pre ++ .doStartEv 1 :: post ∧
       ∀ c ∈ [STree.svc (cleanSpec 2) freshState []], rootStartedOf c = false →
         Ev.markStarted (idOf c) ∈ pre) :=
  ⟨rfl, claim_C5 true (cleanSpec 1) freshState [.svc (cleanSpec 2) freshState []] _ _ rfl⟩

/-- Explicit evaluation of `stop` on a childless node with fault-free stop
hooks. -/
theorem leaf_stop_eq (q : NodeSpec) (qs : NodeState)
    (h1 : q.preStopH = none) (h2 : q.doStopH = none) (h3 : q.postStopH = none) :
    stopS none (.svc q qs []) =
      (none, .svc q ⟨false, false, true, qs.greenlets, qs.handlers⟩ [],
       [.stopBegin q.id, .preStopEv q.id, .doStopEv q.id]
         ++ (if qs.greenlets.isEmpty then []
             else [.joinAllEv q.id q.stopTimeout, .killAllEv q.id 1])
         ++ [.clearReadyEv q.id, .setStoppedEv q.id, .postStopEv q.id]) := by
  simp [stopS, stopChildrenRev, h1, h2, h3, orF]

/-- One step of the reverse-order stop loop over a childless, fault-free
child: no fault, and the child's contribution is appended after the trace of
the later children. -/
theorem leaf_child_step (q : NodeSpec) (qs : NodeState) (rest : List STree)
    (h1 : q.preStopH = none) (h2 : q.doStopH = none) (h3 : q.postStopH = none)
    (hr : (stopChildrenRev rest).1 = none) :
    (stopChildrenRev (.svc q qs [] :: rest)).1 = none ∧
    (stopChildrenRev (.svc q qs [] :: rest)).2.2
      = (stopChildrenRev rest).2.2 ++ childStopTrace (.svc q qs []) := by
  simp only [stopChildrenRev]
  rw [hr]
  cases hs : qs.started with
  | false => simp [childStopTrace, rootStartedOf, hs]
  | true => simp [childStopTrace, rootStartedOf, hs, leaf_stop_eq q qs h1 h2 h3]

/-- The stop-entry markers contributed by a childless, fault-free child:
its own id when it was started, nothing when skipped. -/
theorem leaf_childStopTrace_begins (q : NodeSpec) (qs : NodeState)
    (h1 : q.preStopH = none) (h2 : q.doStopH = none) (h3 : q.postStopH = none) :
    stopBegins (childStopTrace (.svc q qs []))
      = (if qs.started then [q.id] else []) := by
  cases hs : qs.started with
  | false => simp [childStopTrace, rootStartedOf, hs, stopBegins]
  | true =>
    simp only [childStopTrace, rootStartedOf, hs, if_true, leaf_stop_eq q qs h1 h2 h3]
    cases qs.greenlets.isEmpty <;> simp [stopBegins]

/-- C6: for a service with children `[A, B, C]` (childless children with
fault-free stop hooks, arbitrary states), `stop` stops the started children
in exact reverse list order — the child segment of the trace is C's
contribution, then B's, then A's, placed after the node's `pre_stop` event
and before its `do_stop` event — children whose `started` flag is false are
skipped (contributing nothing), and the recorded stop-order trace is
`[C, B, A]` restricted to the started children. -/
theorem claim_C6 (a : Option Nat) (sp : NodeSpec) (st : NodeState)
    (aSp bSp cSp : NodeSpec) (aSt bSt cSt : NodeState)
    (hsp : sp.preStopH = none)
    (ha1 : aSp.preStopH = none) (ha2 : aSp.doStopH = none) (ha3 : aSp.postStopH = none)
    (hb1 : bSp.preStopH = none) (hb2 : bSp.doStopH = none) (hb3 : bSp.postStopH = none)
    (hc1 : cSp.preStopH = none) (hc2 : cSp.doStopH = none) (hc3 : cSp.postStopH = none) :
    ∃ cleanup,
      (stopS a (.svc sp st [.svc aSp aSt [], .svc bSp bSt [], .svc cSp cSt []])).2.2
        = .stopBegin sp.id :: .preStopEv sp.id ::
            (childStopTrace (.svc cSp cSt []) ++ childStopTrace (.svc bSp bSt [])
              ++ childStopTrace (.svc aSp aSt []))
            ++ .doStopEv sp.id :: cleanup
      ∧ stopBegins (childStopTrace (.svc cSp cSt []) ++ childStopTrace (.svc bSp bSt [])
            ++ childStopTrace (.svc aSp aSt []))
          = (if cSt.started then [cSp.id] else []) ++ (if bSt.started then [bSp.id] else [])
              ++ (if aSt.started then [aSp.id] else []) := by
  have h0 : (stopChildrenRev ([] : List STree)).1 = none := rfl
  have hC := leaf_child_step cSp cSt [] hc1 hc2 hc3 h0
  have hB := leaf_child_step bSp bSt [.svc cSp cSt []] hb1 hb2 hb3 hC.1
  have hA := leaf_child_step aSp aSt [.svc bSp bSt [], .svc cSp cSt []] ha1 ha2 ha3 hB.1
  have htr : (stopChildrenRev [.svc aSp aSt [], .svc bSp bSt [], .svc cSp cSt []]).2.2
      = childStopTrace (.svc cSp cSt []) ++ childStopTrace (.svc bSp bSt [])
          ++ childStopTrace (.svc aSp aSt []) := by
    rw [hA.2, hB.2, hC.2]
    simp [stopChildrenRev]
  refine ⟨(if st.greenlets.isEmpty then []
           else [.joinAllEv sp.id (a.getD sp.stopTimeout), .killAllEv sp.id 1])
            ++ [.clearReadyEv sp.id, .setStoppedEv sp.id, .postStopEv sp.id], ?_, ?_⟩
  · simp only [stopS, hsp]
    rw [hA.1]
    rw [htr]
    simp [List.append_assoc]
  · rw [stopBegins, List.filterMap_append, List.filterMap_append]
    rw [← stopBegins, ← stopBegins, ← stopBegins]
    rw [leaf_childStopTrace_begins cSp cSt hc1 hc2 hc3,
        leaf_childStopTrace_begins bSp bSt hb1 hb2 hb3,
        leaf_childStopTrace_begins aSp aSt ha1 ha2 ha3]

theorem claim_C6_w :
    ∃ cleanup,
      (stopS none (.svc (cleanSpec 1) runningState
          [.svc (cleanSpec 100) runningState [], .svc (cleanSpec 101) freshState [],
           .svc (cleanSpec 102) runningState []])).2.2
        = .stopBegin (cleanSpec 1).id :: .preStopEv (cleanSpec 1).id ::
            (childStopTrace (.svc (cleanSpec 102) runningState [])
              ++ childStopTrace (.svc (cleanSpec 101) freshState [])
              ++ childStopTrace (.svc (cleanSpec 100) runningState []))
            ++ .doStopEv (cleanSpec 1).id :: cleanup
      ∧ stopBegins (childStopTrace (.svc (cleanSpec 102) runningState [])
            ++ childStopTrace (.svc (cleanSpec 101) freshState [])
            ++ childStopTrace (.svc (cleanSpec 100) runningState []))
          = (if runningState.started then [(cleanSpec 102).id] else [])
              ++ (if freshState.started then [(cleanSpec 101).id] else [])
              ++ (if runningState.started then [(cleanSpec 100).id] else []) :=
  claim_C6 none (cleanSpec 1) runningState (cleanSpec 100) (cleanSpec 101) (cleanSpec 102)
    runningState freshState runningState rfl rfl rfl rfl rfl rfl rfl rfl rfl rfl

/-- C1: if `start` of a not-yet-started service returns a fault `f` (raised
in any of its guarded steps: `pre_start`, the child starts, `do_start` and
the readiness wait, marking started, or `post_start`), and the stop-path
hooks of the tree are fault-free, then a full `stop()` ran before `f` was
re-raised: the trace places the fault site before the stop events (which
include setting the node's stop signal), the returned fault is the original
one, and the service's `started` flag is false (with its stop signal set)
after the failed start returns. -/
theorem claim_C1 (b : Bool) (sp : NodeSpec) (st : NodeState) (cs : List STree)
    (f : Fault) (t' : STree) (tr : List Ev)
    (hns : st.started = false)
    (hcl : stopCleanT (.svc sp st cs) = true)
    (heq : startS b (.svc sp st cs) = (some f, t', tr)) :
    rootStartedOf t' = false ∧ rootStoppedOf t' = true ∧
    ∃ pre post, tr = pre ++ .faultRaised f :: post ∧ Ev.setStoppedEv sp.id ∈ post := by
  have hcomp : sp.preStopH = none ∧ sp.doStopH = none ∧ sp.postStopH = none
      ∧ stopCleanList cs = true := by
    simp only [stopCleanT, Bool.and_eq_true, Option.isNone_iff_eq_none] at hcl
    exact ⟨hcl.1.1.1, hcl.1.1.2, hcl.1.2, hcl.2⟩
  simp only [startS, hns, Bool.false_eq_true, if_false] at heq
  cases hp : sp.preStartH with
  | some f0 =>
    simp only [hp] at heq
    have hXc : stopCleanT (.svc sp (⟨false, false, false, st.greenlets, st.handlers⟩ : NodeState) cs)
        = true := by
      simp only [stopCleanT, Bool.and_eq_true, Option.isNone_iff_eq_none]
      exact ⟨⟨⟨hcomp.1, hcomp.2.1⟩, hcomp.2.2.1⟩, hcomp.2.2.2⟩
    have hfn := stopClean_stop_none none _ hXc
    obtain ⟨tf, cs2, ttr, hsh⟩ :=
      stopS_svc_shape none sp (⟨false, false, false, st.greenlets, st.handlers⟩ : NodeState) cs
    rw [hsh] at hfn heq
    dsimp only at hfn heq
    rw [hfn, orF_none_left] at heq
    simp only [Prod.mk.injEq, Option.some.injEq] at heq
    obtain ⟨hf, ht', htr⟩ := heq
    subst hf
    refine ⟨by rw [← ht']; simp [rootStartedOf],
            by rw [← ht']; simp [rootStoppedOf],
            [.preStartEv sp.id],
            (Ev.stopBegin sp.id :: ttr ++ (if st.greenlets.isEmpty then [] else [Ev.joinAllEv sp.id ((none : Option Nat).getD sp.stopTimeout), Ev.killAllEv sp.id 1])) ++ [Ev.clearReadyEv sp.id, Ev.setStoppedEv sp.id, Ev.postStopEv sp.id],
            by rw [← htr]; simp, ?_⟩
    simp
  | none =>
    simp only [hp] at heq
    have hcs' := startList_preserves_sc b cs hcomp.2.2.2
    cases hrc : (startChildren b cs).1 with
    | some f0 =>
      simp only [hrc] at heq
      have hXc : stopCleanT (.svc sp (⟨false, false, false, st.greenlets, st.handlers⟩ : NodeState)
          (startChildren b cs).2.1) = true := by
        simp only [stopCleanT, Bool.and_eq_true, Option.isNone_iff_eq_none]
        exact ⟨⟨⟨hcomp.1, hcomp.2.1⟩, hcomp.2.2.1⟩, hcs'⟩
      have hfn := stopClean_stop_none none _ hXc
      obtain ⟨tf, cs2, ttr, hsh⟩ :=
        stopS_svc_shape none sp (⟨false, false, false, st.greenlets, st.handlers⟩ : NodeState)
          (startChildren b cs).2.1
      rw [hsh] at hfn heq
      dsimp only at hfn heq
      rw [hfn, orF_none_left] at heq
      simp only [Prod.mk.injEq, Option.some.injEq] at heq
      obtain ⟨hf, ht', htr⟩ := heq
      subst hf
      refine ⟨by rw [← ht']; simp [rootStartedOf],
              by rw [← ht']; simp [rootStoppedOf],
              .preStartEv sp.id :: (startChildren b cs).2.2, _,
              by rw [← htr], ?_⟩
      simp
    | none =>
      simp only [hrc] at heq
      cases hds : sp.doStartH with
      | fault f0 =>
        simp only [hds] at heq
        have hXc : stopCleanT (.svc sp (⟨false, false, false, st.greenlets, st.handlers⟩ : NodeState)
            (startChildren b cs).2.1) = true := by
          simp only [stopCleanT, Bool.and_eq_true, Option.isNone_iff_eq_none]
          exact ⟨⟨⟨hcomp.1, hcomp.2.1⟩, hcomp.2.2.1⟩, hcs'⟩
        have hfn := stopClean_stop_none none _ hXc
        obtain ⟨tf, cs2, ttr, hsh⟩ :=
          stopS_svc_shape none sp (⟨false, false, false, st.greenlets, st.handlers⟩ : NodeState)
            (startChildren b cs).2.1
        rw [hsh] at hfn heq
        dsimp only at hfn heq
        rw [hfn, orF_none_left] at heq
        simp only [Prod.mk.injEq, Option.some.injEq] at heq
        obtain ⟨hf, ht', htr⟩ := heq
        subst hf
        refine ⟨by rw [← ht']; simp [rootStartedOf],
                by rw [← ht']; simp [rootStoppedOf],
                (.preStartEv sp.id :: (startChildren b cs).2.2) ++ [.doStartEv sp.id],
                (Ev.stopBegin sp.id :: ttr ++ (if st.greenlets.isEmpty then [] else [Ev.joinAllEv sp.id ((none : Option Nat).getD sp.stopTimeout), Ev.killAllEv sp.id 1])) ++ [Ev.clearReadyEv sp.id, Ev.setStoppedEv sp.id, Ev.postStopEv sp.id],
                by rw [← htr]; simp, ?_⟩
        simp
      | ok setsR v =>
        simp only [hds] at heq
        cases hps : sp.postStartH with
        | none =>
          simp only [hps, Prod.mk.injEq] at heq
          exact absurd heq.1 (by simp)
        | some f0 =>
          simp only [hps] at heq
          have hXc : stopCleanT (.svc sp
              { st with stoppedEv := false, started := true,
                        readyEv := (if pyEq v NOT_READY = true then setsR else true) }
              (startChildren b cs).2.1) = true := by
            simp only [stopCleanT, Bool.and_eq_true, Option.isNone_iff_eq_none]
            exact ⟨⟨⟨hcomp.1, hcomp.2.1⟩, hcomp.2.2.1⟩, hcs'⟩
          have hfn := stopClean_stop_none none _ hXc
          obtain ⟨tf, cs2, ttr, hsh⟩ :=
            stopS_svc_shape none sp
              { st with stoppedEv := false, started := true,
                        readyEv := (if pyEq v NOT_READY = true then setsR else true) }
              (startChildren b cs).2.1
          rw [hsh] at hfn heq
          dsimp only at hfn heq
          rw [hfn, orF_none_left] at heq
          simp only [Prod.mk.injEq, Option.some.injEq] at heq
          obtain ⟨hf, ht', htr⟩ := heq
          subst hf
          refine ⟨by rw [← ht']; simp [rootStartedOf],
                  by rw [← ht']; simp [rootStoppedOf],
                  ((.preStartEv sp.id :: (startChildren b cs).2.2)
                    ++ .doStartEv sp.id ::
                        (if pyEq v NOT_READY = true then
                           (if b = true then [Ev.waitReadyEv sp.id sp.readyTimeout] else [])
                         else [Ev.setReadyEv sp.id]))
                    ++ [.markStarted sp.id, .postStartEv sp.id],
                  (Ev.stopBegin sp.id :: ttr ++ (if st.greenlets.isEmpty then [] else [Ev.joinAllEv sp.id ((none : Option Nat).getD sp.stopTimeout), Ev.killAllEv sp.id 1])) ++ [Ev.clearReadyEv sp.id, Ev.setStoppedEv sp.id, Ev.postStopEv sp.id],
                  by rw [← htr]; simp, ?_⟩
          simp

theorem claim_C1_w :
    freshState.started = false ∧
    stopCleanT (.svc (postStartFaultSpec 2) freshState [.svc (cleanSpec 100) freshState []])
      = true ∧
    (rootStartedOf (startS true (.svc (postStartFaultSpec 2) freshState
        [.svc (cleanSpec 100) freshState []])).2.1 = false ∧
     rootStoppedOf (startS true (.svc (postStartFaultSpec 2) freshState
        [.svc (cleanSpec 100) freshState []])).2.1 = true ∧
     ∃ pre post,
       (startS true (.svc (postStartFaultSpec 2) freshState
          [.svc (cleanSpec 100) freshState []])).2.2
         = pre ++ .faultRaised (.hookErr 99) :: post ∧
       Ev.setStoppedEv (postStartFaultSpec 2).id ∈ post) :=
  ⟨rfl, rfl,
   claim_C1 true (postStartFaultSpec 2) freshState [.svc (cleanSpec 100) freshState []]
     (.hookErr 99) _ _ rfl rfl rfl⟩

/-- C9 (counterexample): the claimed invariant — over sequences of `start`,
`stop`, `set_ready`, `serve_forever`, the ready gate is false whenever
`started` is false at every operation boundary — fails on the code: calling
`set_ready` on a fresh stopped service sets the gate unconditionally
(`set_ready` has no started-guard), leaving `started = false` with the ready
gate true after the operation. -/
theorem claim_C9_cex :
    InvT (.svc (cleanSpec 0) freshState []) = true ∧
    runOps [.setReadyOp] (.svc (cleanSpec 0) freshState [])
      = .svc (cleanSpec 0) ⟨false, true, false, [], []⟩ [] ∧
    rootStartedOf (runOps [.setReadyOp] (.svc (cleanSpec 0) freshState [])) = false ∧
    rootReadyOf (runOps [.setReadyOp] (.svc (cleanSpec 0) freshState [])) = true ∧
    InvT (runOps [.setReadyOp] (.svc (cleanSpec 0) freshState [])) = false :=
  ⟨rfl, rfl, rfl, rfl, rfl⟩

/-- C9 (amended): the invariant "the ready gate is false whenever `started`
is false, at every node" holds at every operation boundary for every sequence
of `start`, `stop` and `serve_forever` operations, and also for `set_ready`
operations provided each `set_ready` is invoked only while the service is
started; `set_ready` on a stopped service violates the invariant (see the
counterexample). -/
theorem claim_C9_amended (ops : List Op) (t : STree)
    (hInv : InvT t = true) (hG : guardedOps ops t = true) :
    InvT (runOps ops t) = true := by
  induction ops generalizing t with
  | nil => simpa [runOps] using hInv
  | cons op ops ih =>
    simp only [guardedOps, Bool.and_eq_true] at hG
    simp only [runOps]
    apply ih _ _ hG.2
    cases op with
    | startOp b => exact start_preserves_inv b t hInv
    | stopOp a => exact stop_preserves_inv a t hInv
    | setReadyOp =>
      cases t with
      | svc sp st cs =>
        have hs : st.started = true := hG.1
        simp only [applyOp, setReadyT, InvT, Bool.and_eq_true] at hInv ⊢
        exact ⟨by simp [hs], hInv.2⟩
      | foreign fs s => exact hInv
    | serveForeverOp =>
      simp only [applyOp, serveForeverT]
      cases hs : rootStartedOf t with
      | true => simpa using hInv
      | false =>
        simp only [Bool.false_eq_true, if_false]
        exact start_preserves_inv true t hInv

theorem claim_C9_amended_w :
    InvT (.svc (cleanSpec 0) freshState []) = true ∧
    guardedOps [.startOp true, .setReadyOp, .stopOp none, .serveForeverOp]
      (.svc (cleanSpec 0) freshState []) = true ∧
    InvT (runOps [.startOp true, .setReadyOp, .stopOp none, .serveForeverOp]
      (.svc (cleanSpec 0) freshState [])) = true :=
  ⟨rfl, rfl,
   claim_C9_amended [.startOp true, .setReadyOp, .stopOp none, .serveForeverOp]
     (.svc (cleanSpec 0) freshState []) rfl rfl⟩

/-- When every handler returns normally, the handler loop completes and
invokes exactly the matching entries, in table order, each once. -/
theorem handlerLoopF_allNone (wc : Option Exc → COut × List (Nat × Exc))
    (hb : HandlerBeh) (entries : List (Nat × Nat)) (e : Exc)
    (hwc : wc none = (.normal, [])) (hhb : ∀ h x, hb h x = none) :
    handlerLoopF wc hb entries e
      = (none, (entries.filter (fun p => isinstanceB e p.1)).map (fun p => (p.2, e))) := by
  induction entries with
  | nil => simp [handlerLoopF]
  | cons p rest ih =>
    obtain ⟨t, h⟩ := p
    simp only [handlerLoopF, hhb, hwc]
    cases hi : isinstanceB e t with
    | false => simpa [hi] using ih
    | true => simp [hi, ih]

/-- When every handler returns normally and the raised exception matches some
registered class, the wrapped call returns the exception as a value and the
invocation list is exactly the matching entries' handlers, in table order. -/
theorem wrappedCall_allNone (hb : HandlerBeh) (hs : Handlers) (fuel : Nat) (e : Exc)
    (hhb : ∀ h x, hb h x = none) (hm : matchesAny hs e = true) :
    wrappedCall hb hs (fuel + 1) (some e)
      = (.excValue e, (hs.filter (fun p => isinstanceB e p.1)).map (fun p => (p.2, e))) := by
  have h1 : (fun b => wrappedCall hb hs fuel b) none = (.normal, []) := by
    cases fuel <;> rfl
  simp [wrappedCall, hm, handlerLoopF_allNone _ hb hs e h1 hhb]

/-- The `catch` update always leaves the new registration in the table. -/
theorem mem_updateTable (hs : Handlers) (k h : Nat) : (k, h) ∈ updateTable hs k h := by
  induction hs with
  | nil => simp [updateTable]
  | cons p rest ih =>
    obtain ⟨k2, h2⟩ := p
    simp only [updateTable]
    cases hk : k2 == k with
    | true => simp
    | false =>
      simp only [hk, Bool.false_eq_true, if_false, List.mem_cons]
      exact Or.inr ih

/-- C3 (counterexample): with handler 10 registered for class 1, a fault of
class 1 is matched and handler 10 is invoked, but handler 10 raises a fault
of the unregistered class 99, which propagates out of the wrapped call — the
original fault is not returned as a value, contradicting the claim's
unconditional "the original fault is returned as a value rather than
re-raised". -/
theorem claim_C3_cex :
    matchesAny [(1, 10)] ⟨[1]⟩ = true ∧
    hbEscape 10 ⟨[1]⟩ = some ⟨[99]⟩ ∧
    matchesAny [(1, 10)] ⟨[99]⟩ = false ∧
    wrappedCall hbEscape [(1, 10)] 5 (some ⟨[1]⟩) = (.raised ⟨[99]⟩, [(10, ⟨[1]⟩)]) ∧
    (wrappedCall hbEscape [(1, 10)] 5 (some ⟨[1]⟩)).1 ≠ .excValue ⟨[1]⟩ := by
  decide

/-- C3 (amended): invoking the wrapped callable runs the body: a normal
return passes through with no handler invoked; a fault matching no registered
kind propagates to the caller untouched; a fault matching a registered kind
has the matching handlers invoked — each handler call itself wrapped by the
same interceptor, so a handler's own faults are subject to the same
interception, enabling chained handling — and, provided every invoked
handler either returns normally or raises a fault that the interception
itself absorbs, the original fault is returned as a value rather than
re-raised (a handler fault matching no registration propagates in place of
the original instead). -/
theorem claim_C3_amended :
    (∀ (hb : HandlerBeh) (hs : Handlers) (fuel : Nat),
        wrappedCall hb hs fuel none = (.normal, [])) ∧
    (∀ (hb : HandlerBeh) (hs : Handlers) (fuel : Nat) (e : Exc),
        matchesAny hs e = false → wrappedCall hb hs fuel (some e) = (.raised e, [])) ∧
    (∀ (hb : HandlerBeh) (hs : Handlers) (fuel : Nat) (e : Exc),
        (∀ h x, hb h x = none) → matchesAny hs e = true →
        (wrappedCall hb hs (fuel + 1) (some e)).1 = .excValue e ∧
        ∀ p ∈ hs, isinstanceB e p.1 = true →
          (p.2, e) ∈ (wrappedCall hb hs (fuel + 1) (some e)).2) ∧
    (∀ (t1 h1 t2 h2 : Nat) (e1 e2 : Exc) (hb : HandlerBeh),
        isinstanceB e1 t1 = true → isinstanceB e1 t2 = false →
        hb h1 e1 = some e2 → isinstanceB e2 t1 = false → isinstanceB e2 t2 = true →
        hb h2 e2 = none →
        wrappedCall hb [(t1, h1), (t2, h2)] 2 (some e1)
          = (.excValue e1, [(h1, e1), (h2, e2)])) := by
  refine ⟨?_, ?_, ?_, ?_⟩
  · intro hb hs fuel
    cases fuel <;> rfl
  · intro hb hs fuel e hm
    cases fuel <;> simp [wrappedCall, hm]
  · intro hb hs fuel e hhb hm
    rw [wrappedCall_allNone hb hs fuel e hhb hm]
    constructor
    · rfl
    · intro p hp hpi
      exact List.mem_map.mpr ⟨p, List.mem_filter.mpr ⟨hp, hpi⟩, rfl⟩
  · intro t1 h1 t2 h2 e1 e2 hb h11 h12 hb1 h21 h22 hb2
    simp [wrappedCall, handlerLoopF, matchesAny, h11, h12, hb1, h21, h22, hb2]

theorem claim_C3_amended_w :
    (matchesAny [(1, 10)] ⟨[1]⟩ = true ∧ (∀ h x, hbNone h x = none)) ∧
    (wrappedCall hbNone [(1, 10)] 3 (some ⟨[1]⟩)).1 = .excValue ⟨[1]⟩ ∧
    (10, (⟨[1]⟩ : Exc)) ∈ (wrappedCall hbNone [(1, 10)] 3 (some ⟨[1]⟩)).2 ∧
    wrappedCall hbChain [(1, 10), (2, 20)] 2 (some ⟨[1]⟩)
      = (.excValue ⟨[1]⟩, [(10, ⟨[1]⟩), (20, ⟨[2]⟩)]) :=
  ⟨⟨by decide, fun _ _ => rfl⟩,
   (claim_C3_amended.2.2.1 hbNone [(1, 10)] 2 ⟨[1]⟩ (fun _ _ => rfl) (by decide)).1,
   (claim_C3_amended.2.2.1 hbNone [(1, 10)] 2 ⟨[1]⟩ (fun _ _ => rfl) (by decide)).2
     (1, 10) (by decide) (by decide),
   claim_C3_amended.2.2.2 1 10 2 20 ⟨[1]⟩ ⟨[2]⟩ hbChain (by decide) (by decide) rfl
     (by decide) (by decide) rfl⟩

/-- C4 (counterexample): the handler loop has no `break` — with handlers
registered for classes 1 and 2 and a fault that is an instance of both, both
handlers are invoked (two invocations for one raised fault), contradicting
"the first matching registration in registration order wins, and the handler
is invoked exactly once per raised fault". -/
theorem claim_C4_cex :
    isinstanceB ⟨[1, 2]⟩ 1 = true ∧ isinstanceB ⟨[1, 2]⟩ 2 = true ∧
    wrappedCall hbNone [(1, 10), (2, 20)] 3 (some ⟨[1, 2]⟩)
      = (.excValue ⟨[1, 2]⟩, [(10, ⟨[1, 2]⟩), (20, ⟨[1, 2]⟩)]) ∧
    (wrappedCall hbNone [(1, 10), (2, 20)] 3 (some ⟨[1, 2]⟩)).2.length = 2 := by
  decide

/-- C4 (amended): fault-kind matching is an is-a test against the raised
fault's category, and when the fault's category matches more than one
registered kind, *every* matching registration's handler is invoked, each
exactly once, in table iteration order (the loop has no early exit); the
matched fault is returned as a value and does not additionally reach the
default unhandled-fault path (stated here for handlers that return
normally). -/
theorem claim_C4_amended (hb : HandlerBeh) (hs : Handlers) (fuel : Nat) (e : Exc)
    (hhb : ∀ h x, hb h x = none) (hm : matchesAny hs e = true) :
    wrappedCall hb hs (fuel + 1) (some e)
      = (.excValue e, (hs.filter (fun p => isinstanceB e p.1)).map (fun p => (p.2, e))) :=
  wrappedCall_allNone hb hs fuel e hhb hm

theorem claim_C4_amended_w :
    ((∀ h x, hbNone h x = none) ∧ matchesAny [(1, 10), (2, 20)] ⟨[1, 2]⟩ = true) ∧
    wrappedCall hbNone [(1, 10), (2, 20)] 3 (some ⟨[1, 2]⟩)
      = (.excValue ⟨[1, 2]⟩,
         (([(1, 10), (2, 20)] : Handlers).filter
            (fun p => isinstanceB ⟨[1, 2]⟩ p.1)).map (fun p => (p.2, ⟨[1, 2]⟩))) :=
  ⟨⟨fun _ _ => rfl, by decide⟩,
   claim_C4_amended hbNone [(1, 10), (2, 20)] 2 ⟨[1, 2]⟩ (fun _ _ => rfl) (by decide)⟩

/-- C8: the function stored by `spawn`/`spawn_later` carries no copy of the
fault-handler table (spawning is insensitive to the table at spawn time), and
a fault raised when the task runs is matched against the table in effect at
that moment: a handler registered via `catch` after the task was spawned but
before the fault is raised still intercepts the fault (returned as a value,
handler invoked), even when the table at spawn time had no matching entry —
in which case running against the spawn-time table would have let the fault
propagate. -/
theorem claim_C8 (s0 : SvcE) (k h : Nat) (e : Exc) (hb : HandlerBeh) (fuel : Nat)
    (hk : isinstanceB e k = true) (hhb : ∀ h2 x, hb h2 x = none) :
    (∀ s1 s2 : SvcE, spawnE s1 (some e) = spawnE s2 (some e)) ∧
    (runSpawned (catchE k h s0) (spawnE s0 (some e)) hb (fuel + 1)).1 = .excValue e ∧
    (h, e) ∈ (runSpawned (catchE k h s0) (spawnE s0 (some e)) hb (fuel + 1)).2 ∧
    (matchesAny s0.handlers e = false →
      (runSpawned s0 (spawnE s0 (some e)) hb (fuel + 1)).1 = .raised e) := by
  have hmem := mem_updateTable s0.handlers k h
  have hm : matchesAny (updateTable s0.handlers k h) e = true := by
    simp only [matchesAny, List.any_eq_true]
    exact ⟨(k, h), hmem, hk⟩
  refine ⟨fun s1 s2 => rfl, ?_, ?_, ?_⟩
  · show (wrappedCall hb (updateTable s0.handlers k h) (fuel + 1) (some e)).1 = _
    rw [wrappedCall_allNone hb _ fuel e hhb hm]
  · show (h, e) ∈ (wrappedCall hb (updateTable s0.handlers k h) (fuel + 1) (some e)).2
    rw [wrappedCall_allNone hb _ fuel e hhb hm]
    exact List.mem_map.mpr ⟨(k, h), List.mem_filter.mpr ⟨hmem, hk⟩, rfl⟩
  · intro hm0
    show (wrappedCall hb s0.handlers (fuel + 1) (some e)).1 = .raised e
    simp [wrappedCall, hm0]

theorem claim_C8_w :
    (isinstanceB ⟨[1]⟩ 1 = true ∧ (∀ h2 x, hbNone h2 x = none)
      ∧ matchesAny (SvcE.handlers ⟨[]⟩) ⟨[1]⟩ = false) ∧
    (∀ s1 s2 : SvcE, spawnE s1 (some ⟨[1]⟩) = spawnE s2 (some ⟨[1]⟩)) ∧
    (runSpawned (catchE 1 10 ⟨[]⟩) (spawnE ⟨[]⟩ (some ⟨[1]⟩)) hbNone 3).1
      = .excValue ⟨[1]⟩ ∧
    (10, (⟨[1]⟩ : Exc)) ∈ (runSpawned (catchE 1 10 ⟨[]⟩) (spawnE ⟨[]⟩ (some ⟨[1]⟩)) hbNone 3).2 ∧
    (matchesAny (SvcE.handlers ⟨[]⟩) ⟨[1]⟩ = false →
      (runSpawned ⟨[]⟩ (spawnE ⟨[]⟩ (some ⟨[1]⟩)) hbNone 3).1 = .raised ⟨[1]⟩) :=
  ⟨⟨by decide, fun _ _ => rfl, by decide⟩,
   claim_C8 ⟨[]⟩ 1 10 ⟨[1]⟩ hbNone 2 (by decide) (fun _ _ => rfl)⟩
